import Mathlib

/-!
# Verification of the screenlock entity runtime

A shallow embedding of the Rust screenlock repository: the entity contract
(`entity.rs`), the decorating wrapper (`base_entity.rs`), the controller
tick/dispatch loop and event routing (`controller.rs`), and the concrete
entities (`static_text_entity.rs`, `count_down_entity.rs`,
`password_prompt_entity.rs`, `feedback_entity.rs`).

Rust `HashMap<String, String>` property stores are embedded as association
lists with insert-replaces-value semantics; terminal output is embedded as a
list of draw commands; `Instant`-based wall-clock readings become explicit
`Nat` nanosecond parameters threaded through `update`.
-/

/-- A terminal draw command, the observable output of one `draw` call.
Mirrors the crossterm commands the entities issue. -/
inductive DrawCmd
  | moveTo (col row : Nat)
  | clearLine
  | clearAll
  | printStr (s : String)
  | setFgRed
  | resetColor
  | savePos
  | restorePos
deriving DecidableEq, Repr

/-- Key codes the entities inspect (crossterm `KeyCode`). `other` collapses
all codes no entity matches on. -/
inductive KeyCode
  | char (c : Char)
  | backspace
  | enter
  | other
deriving DecidableEq, Repr

/-- An external input event (crossterm `Event`): a key event or anything
else. -/
inductive InputEvent
  | key (code : KeyCode)
  | nonKey
deriving DecidableEq, Repr

/-- Embeds `ControlEvent` from controller.rs: a one-shot property-mutation
instruction `{name, property_key, property_value}`. -/
structure ControlEvent where
  name : String
  property_key : String
  property_value : String
deriving DecidableEq, Repr

/-- Embeds `UpdateResult` from controller.rs: continuation control plus outgoing
events produced by one `update` call. -/
structure UpdateResult where
  kill : Bool
  focused : Bool
  events : List ControlEvent
deriving DecidableEq, Repr

/-- Embeds `UpdateResult::kill()`. -/
def UpdateResult.mkKill : UpdateResult := ⟨true, false, []⟩

/-- Embeds `UpdateResult::focus()`. -/
def UpdateResult.mkFocus : UpdateResult := ⟨false, true, []⟩

/-- Embeds `UpdateResult::nop()`. -/
def UpdateResult.mkNop : UpdateResult := ⟨false, false, []⟩

/-- A property map (`HashMap<String, String>`), embedded as an association
list whose keys are distinct in any state reachable through `propsInsert`. -/
abbrev Props := List (String × String)

/-- Embeds `HashMap::get`, on the association-list embedding. -/
def propsGet : Props → String → Option String
  | [], _ => none
  | (k', v) :: rest, k => if k' = k then some v else propsGet rest k

/-- Embeds `HashMap::insert`: replaces the value of an existing key, otherwise
appends the binding. -/
def propsInsert : Props → String → String → Props
  | [], k, v => [(k, v)]
  | (k', v') :: rest, k, v =>
      if k' = k then (k', v) :: rest else (k', v') :: propsInsert rest k v

/-- The `Visible` trait default `is_visible` (entity.rs lines 13-17), over
the property map backing `get_property`:
`get_property("visible").map(|v| v == "true").unwrap_or(true)`. -/
def Visible.is_visible (props : Props) : Bool :=
  ((propsGet props "visible").map (fun v => v == "true")).getD true

/-- The `Visible` trait default `set_visible` (entity.rs lines 19-21). -/
def Visible.set_visible (props : Props) (visible : Bool) : Props :=
  propsInsert props "visible" (if visible then "true" else "false")

/-- Embeds `BaseEntity<T>` (base_entity.rs): the decorating wrapper holding a
synthesized name, a property map, and the inner entity. -/
structure BaseEntity (τ : Type) where
  name : String
  properties : Props
  delegate_entity : τ
deriving DecidableEq, Repr

/-- Embeds `Named::get_name` for `BaseEntity`. -/
def BaseEntity.get_name {τ : Type} (b : BaseEntity τ) : String := b.name

/-- Embeds `HasProperties::get_property` for `BaseEntity` (base_entity.rs lines
21-23). -/
def BaseEntity.get_property {τ : Type} (b : BaseEntity τ) (k : String) :
    Option String :=
  propsGet b.properties k

/-- Embeds `HasProperties::set_property` for `BaseEntity` (base_entity.rs lines
25-28); the Rust method inserts and returns `true`. -/
def BaseEntity.set_property {τ : Type} (b : BaseEntity τ) (k v : String) :
    BaseEntity τ × Bool :=
  ({ b with properties := propsInsert b.properties k v }, true)

/-- Embeds `Entity::draw` for `BaseEntity` (base_entity.rs lines 32-34): it
delegates unconditionally to the inner entity's draw. `innerDraw` is the
inner type's `Entity::draw`. -/
def BaseEntity.draw {τ : Type} (innerDraw : τ → List DrawCmd)
    (b : BaseEntity τ) : List DrawCmd :=
  innerDraw b.delegate_entity

/-- Embeds `BaseEntity::new` (base_entity.rs lines 46-52): synthesizes the name
from the inner entity's name and starts with an empty property map. -/
def BaseEntity.new {τ : Type} (innerName : τ → String) (d : τ) :
    BaseEntity τ :=
  ⟨"BaseEntity-" ++ innerName d, [], d⟩

/-- Screen row of the title block (`TITLE_Y`), as in the monolithic
controller.rs version (rows 1 and 2). -/
def TITLE_Y : Nat := 1

/-- Embeds `StaticTextEntity` (static_text_entity.rs). -/
structure StaticTextEntity where
  id : String
  lines : List String
deriving DecidableEq, Repr

/-- Embeds `StaticTextEntity::draw` (static_text_entity.rs lines 25-33): for each
line, move to row `TITLE_Y + idx` and print it. -/
def StaticTextEntity.draw (s : StaticTextEntity) : List DrawCmd :=
  (s.lines.enum.map
    (fun p => [DrawCmd.moveTo 0 (TITLE_Y + p.1), DrawCmd.printStr p.2])).flatten

/-- Embeds `StaticTextEntity::new`. -/
def StaticTextEntity.new (id : String) (lines : List String) :
    StaticTextEntity :=
  ⟨"StaticTextEntity-" ++ id, lines⟩

/-- Embeds `Named::get_name` for `StaticTextEntity`. -/
def StaticTextEntity.get_name (s : StaticTextEntity) : String := s.id

/-- Nanoseconds per second: `Duration` values are embedded as `Nat`
nanosecond counts and `Duration::as_secs` truncates. -/
def NANOS_PER_SEC : Nat := 1000000000

/-- Rust's `{:02}` format: left-pad the decimal representation with zeros
to a minimum width of two. -/
def fmt02 (n : Nat) : String :=
  if n < 10 then "0" ++ toString n else toString n

/-- Embeds `CountDownEntity` (count_down_entity.rs); `total` is in nanoseconds,
and the `start` instant is left implicit: `update` receives the elapsed
time since `start` directly. -/
structure CountDownEntity where
  id : String
  total : Nat
  print_text : String
deriving DecidableEq, Repr

/-- Embeds `CountDownEntity::update` (count_down_entity.rs lines 52-69), as a
function of the elapsed nanoseconds since `start`: clamp the remaining
time at zero, render it as zero-padded minutes and seconds, and kill when
the remaining whole seconds reach zero. -/
def CountDownEntity.update (c : CountDownEntity) (elapsed : Nat) :
    CountDownEntity × UpdateResult :=
  let remaining := if elapsed ≥ c.total then 0 else c.total - elapsed
  let secs := remaining / NANOS_PER_SEC
  let minutes := secs / 60
  let seconds := secs % 60
  let c' := { c with print_text := fmt02 minutes ++ ":" ++ fmt02 seconds }
  let over := secs ≤ 0
  (c', if over then UpdateResult.mkKill else UpdateResult.mkNop)

/-- Embeds `PasswordPromptEntity` (password_prompt_entity.rs). -/
structure PasswordPromptEntity where
  id : String
  prompt : String
  correct_password : String
  password : String
  dirty : Bool
  linked_feedback : String
deriving DecidableEq, Repr

/-- Embeds `PasswordPromptEntity::new` (password_prompt_entity.rs lines 25-34). -/
def PasswordPromptEntity.new (id prompt correct_password
    linked_feedback_name : String) : PasswordPromptEntity :=
  ⟨"PasswordPromptEntity-" ++ id, prompt, correct_password, "", true,
    linked_feedback_name⟩

/-- Embeds `PasswordPromptEntity::handle_event` (password_prompt_entity.rs lines
76-104): a character is appended, backspace pops, enter marks the state
clean and — comparing by exact string equality — keeps a matching password
or clears a mismatching one; all three are consumed, everything else is
not. -/
def PasswordPromptEntity.handle_event (p : PasswordPromptEntity)
    (ev : InputEvent) : PasswordPromptEntity × Bool :=
  match ev with
  | InputEvent.key (KeyCode.char c) =>
      ({ p with password := p.password.push c, dirty := true }, true)
  | InputEvent.key KeyCode.backspace =>
      ({ p with password := p.password.dropRight 1, dirty := true }, true)
  | InputEvent.key KeyCode.enter =>
      if p.password = p.correct_password then
        ({ p with dirty := false }, true)
      else
        ({ p with dirty := false, password := "" }, true)
  | InputEvent.key KeyCode.other => (p, false)
  | InputEvent.nonKey => (p, false)

/-- Embeds `PasswordPromptEntity::update` (password_prompt_entity.rs lines 57-74):
kill when the password matches and the state is clean; on a clean
non-match, mark dirty and emit the event making the linked feedback entity
visible; otherwise just keep focus. -/
def PasswordPromptEntity.update (p : PasswordPromptEntity) :
    PasswordPromptEntity × UpdateResult :=
  if p.password = p.correct_password && !p.dirty then
    (p, UpdateResult.mkKill)
  else if !p.dirty then
    ({ p with dirty := true },
      ⟨false, true, [⟨p.linked_feedback, "visible", "true"⟩]⟩)
  else
    (p, UpdateResult.mkFocus)

/-- Embeds `FeedbackEntity` (feedback_entity.rs); the `last_shown` instant and
`max_show_duration` are `Nat` nanosecond readings of the same clock that
`update` receives as `now`. -/
structure FeedbackEntity where
  id : String
  message : String
  last_shown : Option Nat
  max_show_duration : Nat
  properties : Props
deriving DecidableEq, Repr

/-- Embeds `FeedbackEntity::new` (feedback_entity.rs lines 28-41): starts visible. -/
def FeedbackEntity.new (id message : String) (max_shown_duration : Nat) :
    FeedbackEntity :=
  ⟨"FeedbackEntity-" ++ id, message, none, max_shown_duration,
    [("visible", "true")]⟩

/-- Embeds `Visible::is_visible` as inherited by `FeedbackEntity`. -/
def FeedbackEntity.is_visible (f : FeedbackEntity) : Bool :=
  Visible.is_visible f.properties

/-- Embeds `FeedbackEntity::update` (feedback_entity.rs lines 87-100), as a
function of the current instant `now`: stamp `last_shown` when first seen
visible, then auto-hide once the stamped instant is at least
`max_show_duration` old. -/
def FeedbackEntity.update (f : FeedbackEntity) (now : Nat) :
    FeedbackEntity × UpdateResult :=
  let f1 := if f.is_visible && f.last_shown.isNone then
      { f with last_shown := some now } else f
  let cond := (f1.last_shown.map
      (fun t => decide (now - t ≥ f1.max_show_duration))).getD false
  let f2 := if f1.is_visible && cond then
      { f1 with
          properties := Visible.set_visible f1.properties false
          last_shown := none }
    else f1
  (f2, UpdateResult.mkNop)

/-- The method suite of one boxed `dyn FullEntity`: the controller only ever
touches an entity through these five trait methods, so a `Vec<Box<dyn
FullEntity>>` is embedded as a `List σ` together with one `EntityImpl σ`
(with `σ` a sum of the concrete entity state types when heterogeneous). -/
structure EntityImpl (σ : Type) where
  get_name : σ → String
  set_property : σ → String → String → σ
  update : σ → σ × UpdateResult
  draw : σ → List DrawCmd
  handle_event : σ → InputEvent → σ × Bool

namespace Controller

variable {σ : Type}

/-- One recorded controller action on the entity at a given registration
index: an `update` call, a `draw` call (with its wrapped terminal output),
a `handle_event` offer, or a `set_property` call made while routing a
queued event. -/
inductive Act
  | upd (i : Nat)
  | drw (i : Nat) (out : List DrawCmd)
  | hev (i : Nat)
  | setProp (i : Nat) (k v : String)
deriving DecidableEq, Repr

/-- The registration index an action touches. -/
def Act.idx : Act → Nat
  | .upd i => i
  | .drw i _ => i
  | .hev i => i
  | .setProp i _ _ => i

/-- Whether an action is a `set_property` call from event routing. -/
def Act.isSetProp : Act → Bool
  | .setProp _ _ _ => true
  | _ => false

/-- Result of one phase (or one full pass) of `work_loop`: the entity
states, the accumulated outgoing events still in `events_to_process`,
whether some update returned `kill`, and the trace of actions taken. -/
structure PassResult (σ : Type) where
  entities : List σ
  events : List ControlEvent
  killed : Bool
  trace : List Act
deriving DecidableEq

/-- The post-update state of an entity. -/
def updState (impl : EntityImpl σ) (e : σ) : σ := (impl.update e).1

/-- The `UpdateResult` of an entity's update. -/
def updRes (impl : EntityImpl σ) (e : σ) : UpdateResult := (impl.update e).2

/-- Whether an entity's update kills the loop (tick phase). -/
def tickKills (impl : EntityImpl σ) (e : σ) : Bool := (updRes impl e).kill

/-- Embeds `Controller::update_and_draw_entity` (controller.rs lines 189-202):
update the entity, then draw its new state unconditionally, wrapping the
draw in save/restore cursor commands unless the update asked for focus. -/
def update_and_draw_entity (impl : EntityImpl σ) (e : σ) :
    σ × UpdateResult × List DrawCmd :=
  let r := impl.update e
  let out := impl.draw r.1
  (r.1, r.2,
    if r.2.focused then out else
      DrawCmd.savePos :: out ++ [DrawCmd.restorePos])

/-- The wrapped terminal output `update_and_draw_entity` produces for one
entity. -/
def wrapDraw (impl : EntityImpl σ) (e : σ) : List DrawCmd :=
  if (updRes impl e).focused then impl.draw (updState impl e) else
    DrawCmd.savePos :: impl.draw (updState impl e) ++ [DrawCmd.restorePos]

/-- The tick phase of `Controller::work_loop` (controller.rs lines
217-224), indices starting at `i`: update-and-draw each entity in order;
on the first `kill` return at once (later entities untouched, the killing
entity's events not collected), otherwise accumulate the outgoing events. -/
def tickPhaseAux (impl : EntityImpl σ) (i : Nat) :
    List σ → PassResult σ
  | [] => ⟨[], [], false, []⟩
  | e :: rest =>
      let (e', r, out) := update_and_draw_entity impl e
      if r.kill then
        ⟨e' :: rest, [], true, [Act.upd i, Act.drw i out]⟩
      else
        let rec' := tickPhaseAux impl (i + 1) rest
        ⟨e' :: rec'.entities, r.events ++ rec'.events, rec'.killed,
          Act.upd i :: Act.drw i out :: rec'.trace⟩

/-- The inner scan of `Controller::execute_entity_events` (controller.rs
lines 206-211) for one queued event: walk the entities in registration
order and call `set_property` on the first whose name matches, then stop. -/
def execute_entity_events_one (impl : EntityImpl σ) (i : Nat)
    (ev : ControlEvent) : List σ → List σ × List Act
  | [] => ([], [])
  | e :: rest =>
      if impl.get_name e = ev.name then
        (impl.set_property e ev.property_key ev.property_value :: rest,
          [Act.setProp i ev.property_key ev.property_value])
      else
        let r := execute_entity_events_one impl (i + 1) ev rest
        (e :: r.1, r.2)

/-- Embeds `Controller::execute_entity_events` (controller.rs lines 204-213):
drain the queued events in order, routing each one through the scan. -/
def execute_entity_events (impl : EntityImpl σ) (es : List σ) :
    List ControlEvent → List σ × List Act
  | [] => (es, [])
  | ev :: evs =>
      let r := execute_entity_events_one impl 0 ev es
      let r' := execute_entity_events impl r.1 evs
      (r'.1, r.2 ++ r'.2)

/-- One full tick pass of `work_loop` (controller.rs lines 217-225): the
tick phase followed — only when no update killed — by event application. -/
def tickPass (impl : EntityImpl σ) (es : List σ) : PassResult σ :=
  let t := tickPhaseAux impl 0 es
  if t.killed then t
  else
    let r := execute_entity_events impl t.entities t.events
    ⟨r.1, [], false, t.trace ++ r.2⟩

/-- The post-`handle_event` state of an entity offered `ev`. -/
def handled (impl : EntityImpl σ) (ev : InputEvent) (e : σ) : σ :=
  (impl.handle_event e ev).1

/-- Whether an entity consumes the offered event. -/
def acted (impl : EntityImpl σ) (ev : InputEvent) (e : σ) : Bool :=
  (impl.handle_event e ev).2

/-- Whether an entity, offered `ev`, consumes it and then kills on the
immediate re-update (input phase). -/
def inputKills (impl : EntityImpl σ) (ev : InputEvent) (e : σ) : Bool :=
  acted impl ev e && (updRes impl (handled impl ev e)).kill

/-- The input phase of `Controller::work_loop` (controller.rs lines
226-239), indices starting at `i`: offer the event to each entity in
order; each consumer is immediately re-updated and re-drawn, with the same
kill check and event accumulation as the tick phase. -/
def inputPhaseAux (impl : EntityImpl σ) (ev : InputEvent) (i : Nat) :
    List σ → PassResult σ
  | [] => ⟨[], [], false, []⟩
  | e :: rest =>
      let (e1, didAct) := impl.handle_event e ev
      if didAct then
        let (e2, r, out) := update_and_draw_entity impl e1
        if r.kill then
          ⟨e2 :: rest, [], true, [Act.hev i, Act.upd i, Act.drw i out]⟩
        else
          let rec' := inputPhaseAux impl ev (i + 1) rest
          ⟨e2 :: rec'.entities, r.events ++ rec'.events, rec'.killed,
            Act.hev i :: Act.upd i :: Act.drw i out :: rec'.trace⟩
      else
        let rec' := inputPhaseAux impl ev (i + 1) rest
        ⟨e1 :: rec'.entities, rec'.events, rec'.killed,
          Act.hev i :: rec'.trace⟩

/-- One full input pass of `work_loop`: the input phase followed — only
when no re-update killed — by event application. -/
def inputPass (impl : EntityImpl σ) (ev : InputEvent) (es : List σ) :
    PassResult σ :=
  let t := inputPhaseAux impl ev 0 es
  if t.killed then t
  else
    let r := execute_entity_events impl t.entities t.events
    ⟨r.1, [], false, t.trace ++ r.2⟩

/-- One iteration of the body of `Controller::work_loop` (controller.rs
lines 216-240): the tick pass, then — unless it killed and when the poll
yielded an input event — the input pass. -/
def loopBody (impl : EntityImpl σ) (es : List σ)
    (input : Option InputEvent) : PassResult σ :=
  let t := tickPass impl es
  if t.killed then t
  else
    match input with
    | none => t
    | some ev =>
        let r := inputPass impl ev t.entities
        ⟨r.entities, r.events, r.killed, t.trace ++ r.trace⟩

end Controller

/-- A synthetic concrete entity used to instantiate the controller model on
closed inputs: its behavior fields directly prescribe what each trait
method returns. -/
structure TestEntity where
  name : String
  props : Props
  killOnUpdate : Bool
  focusedOnUpdate : Bool
  evts : List ControlEvent
  out : List DrawCmd
  consumes : Bool
deriving DecidableEq, Repr

/-- The `EntityImpl` for `TestEntity`. -/
def testImpl : EntityImpl TestEntity where
  get_name e := e.name
  set_property e k v := { e with props := propsInsert e.props k v }
  update e := (e, ⟨e.killOnUpdate, e.focusedOnUpdate, e.evts⟩)
  draw e := e.out
  handle_event e _ := (e, e.consumes)

/-! ## Helper lemmas -/

@[simp] theorem UpdateResult.mkKill_kill : UpdateResult.mkKill.kill = true := rfl
@[simp] theorem UpdateResult.mkKill_focused : UpdateResult.mkKill.focused = false := rfl
@[simp] theorem UpdateResult.mkKill_events : UpdateResult.mkKill.events = [] := rfl
@[simp] theorem UpdateResult.mkFocus_kill : UpdateResult.mkFocus.kill = false := rfl
@[simp] theorem UpdateResult.mkFocus_focused : UpdateResult.mkFocus.focused = true := rfl
@[simp] theorem UpdateResult.mkFocus_events : UpdateResult.mkFocus.events = [] := rfl
@[simp] theorem UpdateResult.mkNop_kill : UpdateResult.mkNop.kill = false := rfl
@[simp] theorem UpdateResult.mkNop_focused : UpdateResult.mkNop.focused = false := rfl
@[simp] theorem UpdateResult.mkNop_events : UpdateResult.mkNop.events = [] := rfl

/-- Inserting a key and reading it back yields the inserted value. -/
theorem propsGet_insert_self (ps : Props) (k v : String) :
    propsGet (propsInsert ps k v) k = some v := by
  induction ps with
  | nil => simp [propsInsert, propsGet]
  | cons hd tl ih =>
      obtain ⟨k', v'⟩ := hd
      by_cases h : k' = k <;> simp [propsInsert, propsGet, h, ih]

/-- Hiding via `set_visible false` makes `is_visible` false. -/
theorem is_visible_set_visible_false (ps : Props) :
    Visible.is_visible (Visible.set_visible ps false) = false := by
  simp [Visible.is_visible, Visible.set_visible, propsGet_insert_self]

/-! ## C5 -/

/-- C5: on a property-holding entity (`BaseEntity`), `set_property k v`
immediately followed by `get_property k` returns `v`; `get_property` on a
freshly built wrapper (no key ever set) returns `none`; and the derived
`is_visible` defaults to `true` when the `"visible"` key is absent. -/
theorem c5_property_roundtrip {τ : Type} (b : BaseEntity τ) (k v k' : String)
    (innerName : τ → String) (d : τ) (ps : Props)
    (habsent : propsGet ps "visible" = none) :
    ((b.set_property k v).1).get_property k = some v
    ∧ (BaseEntity.new innerName d).get_property k' = none
    ∧ Visible.is_visible ps = true := by
  refine ⟨?_, rfl, ?_⟩
  · simp [BaseEntity.set_property, BaseEntity.get_property,
      propsGet_insert_self]
  · simp [Visible.is_visible, habsent]

/-- Witness for C5 at a concrete wrapper and key. -/
theorem c5_property_roundtrip_witness :
    ((((BaseEntity.new (fun _ => "t") ()).set_property "k" "v").1).get_property
        "k" = some "v")
    ∧ (BaseEntity.new (fun _ => "t") ()).get_property "other" = none
    ∧ Visible.is_visible [("color", "red")] = true :=
  c5_property_roundtrip (BaseEntity.new (fun _ => "t") ()) "k" "v" "other"
    (fun _ => "t") () [("color", "red")] rfl

/-! ## C10 -/

/-- C10: `is_visible` is `true` exactly when the `"visible"` property is
absent or stored as the exact string `"true"`; any other stored value —
for example `"True"`, `"TRUE"`, `"1"`, `"yes"` — yields `false`. -/
theorem c10_is_visible_exact (ps : Props) :
    (Visible.is_visible ps = true ↔
      propsGet ps "visible" = none ∨ propsGet ps "visible" = some "true")
    ∧ Visible.is_visible [("visible", "True")] = false
    ∧ Visible.is_visible [("visible", "TRUE")] = false
    ∧ Visible.is_visible [("visible", "1")] = false
    ∧ Visible.is_visible [("visible", "yes")] = false := by
  refine ⟨?_, by decide, by decide, by decide, by decide⟩
  cases h : propsGet ps "visible" with
  | none => simp [Visible.is_visible, h]
  | some v => simp [Visible.is_visible, h]

/-- Witness for C10: the empty property map is visible. -/
theorem c10_is_visible_exact_witness : Visible.is_visible [] = true :=
  ((c10_is_visible_exact []).1).mpr (Or.inl rfl)

/-! ## C1 -/

/-- A concrete static-text entity to wrap. -/
def stTitle : StaticTextEntity := StaticTextEntity.new "title" ["a", "b"]

/-- The wrapper around `stTitle` with its own `"visible"` property set to
`"false"`. -/
def wrappedTitle : BaseEntity StaticTextEntity :=
  ((BaseEntity.new StaticTextEntity.get_name stTitle).set_property
    "visible" "false").1

/-- C1 counterexample: with the wrapper's `"visible"` property set to the
string `"false"`, `BaseEntity::draw` still delegates and produces the inner
entity's full (non-empty) output — it is not a no-op. -/
theorem c1_counterexample :
    wrappedTitle.get_property "visible" = some "false"
    ∧ BaseEntity.draw StaticTextEntity.draw wrappedTitle =
        [DrawCmd.moveTo 0 1, DrawCmd.printStr "a",
         DrawCmd.moveTo 0 2, DrawCmd.printStr "b"]
    ∧ BaseEntity.draw StaticTextEntity.draw wrappedTitle ≠ [] := by
  refine ⟨rfl, rfl, by decide⟩

/-- C1 amended: the wrapper's `draw` delegates unchanged to the inner
entity regardless of its own property map — in particular, setting any
property (including `"visible"` to `"false"`) never changes the rendered
output, which is always exactly the inner entity's output. -/
theorem c1_draw_always_delegates {τ : Type} (innerDraw : τ → List DrawCmd)
    (b : BaseEntity τ) (k v : String) :
    BaseEntity.draw innerDraw ((b.set_property k v).1) =
      innerDraw b.delegate_entity
    ∧ BaseEntity.draw innerDraw b = innerDraw b.delegate_entity :=
  ⟨rfl, rfl⟩

/-! ## C6 -/

/-- Feed a list of characters to the prompt as key events, in order. -/
def feedChars (p : PasswordPromptEntity) (cs : List Char) :
    PasswordPromptEntity :=
  cs.foldl (fun q c => (q.handle_event (InputEvent.key (KeyCode.char c))).1) p

/-- A prompt configured with password `"password"`. -/
def pwPrompt : PasswordPromptEntity :=
  PasswordPromptEntity.new "pw" "Enter password: " "password" "fb"

/-- C6 counterexample: with configured password `"password"`, typing
`"Password"` (equal up to case, no surrounding whitespace) and pressing
Enter does not match: the mismatch branch runs (entered text cleared) and
the following update does not terminate — the comparison is exact, not
case-insensitive. Typing the exact string `"password"` does terminate. -/
theorem c6_counterexample :
    (((feedChars pwPrompt ['P', 'a', 's', 's', 'w', 'o', 'r', 'd']).handle_event
        (InputEvent.key KeyCode.enter)).1).password = ""
    ∧ ((((feedChars pwPrompt ['P', 'a', 's', 's', 'w', 'o', 'r', 'd']).handle_event
        (InputEvent.key KeyCode.enter)).1).update).2.kill = false
    ∧ ((((feedChars pwPrompt ['p', 'a', 's', 's', 'w', 'o', 'r', 'd']).handle_event
        (InputEvent.key KeyCode.enter)).1).update).2.kill = true := by
  refine ⟨by decide, by decide, by decide⟩

/-- C6 amended: the entered password is compared to the configured one by
exact string equality — no trimming, no case folding. For any prompt state
with a non-empty configured password, pressing Enter and running the next
update terminates exactly when the entered string equals the configured
string character for character. -/
theorem c6_exact_comparison (p : PasswordPromptEntity)
    (hne : p.correct_password ≠ "") :
    ((((p.handle_event (InputEvent.key KeyCode.enter)).1).update).2).kill =
      (p.password == p.correct_password) := by
  by_cases h : p.password = p.correct_password
  · simp [PasswordPromptEntity.handle_event, PasswordPromptEntity.update, h]
  · have hsym : ¬("" = p.correct_password) := fun hc => hne hc.symm
    simp [PasswordPromptEntity.handle_event, PasswordPromptEntity.update, h,
      hsym]

/-- Witness for C6 at the concrete prompt with password `"password"`. -/
theorem c6_exact_comparison_witness :
    ((((feedChars pwPrompt
          ['p', 'a', 's', 's', 'w', 'o', 'r', 'd']).handle_event
        (InputEvent.key KeyCode.enter)).1).update).2.kill = true := by
  rw [c6_exact_comparison _ (by decide)]
  decide

/-! ## C7 -/

/-- Embeds `CountDownEntity::new` (count_down_entity.rs lines 22-31). -/
def CountDownEntity.new (id : String) (total : Nat) : CountDownEntity :=
  ⟨"CountDownEntity-" ++ id, total, ""⟩

/-- Lemma: `fmt02` renders every value below 60 with exactly two characters. -/
theorem fmt02_length_two : ∀ n < 60, (fmt02 n).length = 2 := by decide

/-- C7: for a countdown configured with 20 seconds total, every update at
or after 20s of elapsed wall-clock time kills (regardless of how often
update ticks) and shows `"00:00"`; and at every elapsed time whatsoever,
the displayed text is zero-padded `MM:SS` with the seconds field below 60
— clamped, never negative. -/
theorem c7_countdown (c : CountDownEntity) (h : c.total = 20 * NANOS_PER_SEC)
    (elapsed : Nat) :
    (elapsed ≥ c.total →
      ((c.update elapsed).2).kill = true
      ∧ ((c.update elapsed).1).print_text = "00:00")
    ∧ (∃ m s, s < 60
        ∧ ((c.update elapsed).1).print_text = fmt02 m ++ ":" ++ fmt02 s
        ∧ (fmt02 m).length = 2 ∧ (fmt02 s).length = 2) := by
  constructor
  · intro hge
    constructor
    · simp [CountDownEntity.update, hge]
    · simp [CountDownEntity.update, hge]
      decide
  · by_cases hge : elapsed ≥ c.total
    · refine ⟨0, 0, by omega, ?_, by decide, by decide⟩
      simp [CountDownEntity.update, hge]
    · have hrem : c.total - elapsed ≤ 20 * NANOS_PER_SEC := by omega
      have hsecs : (c.total - elapsed) / NANOS_PER_SEC < 60 := by
        have := Nat.div_le_div_right (c := NANOS_PER_SEC) hrem
        simp [NANOS_PER_SEC] at this ⊢
        omega
      refine ⟨(c.total - elapsed) / NANOS_PER_SEC / 60,
        (c.total - elapsed) / NANOS_PER_SEC % 60,
        Nat.mod_lt _ (by norm_num), ?_, ?_, ?_⟩
      · simp [CountDownEntity.update, hge]
      · exact fmt02_length_two _ (by
          have := Nat.div_le_self ((c.total - elapsed) / NANOS_PER_SEC) 60
          omega)
      · exact fmt02_length_two _ (Nat.mod_lt _ (by norm_num))

/-- A concrete 20-second countdown. -/
def cd20 : CountDownEntity := CountDownEntity.new "cd" (20 * NANOS_PER_SEC)

/-- Witness for C7: the concrete 20s countdown, updated exactly at the 20s
mark, kills and shows `"00:00"`. -/
theorem c7_countdown_witness :
    ((cd20.update (20 * NANOS_PER_SEC)).2).kill = true
    ∧ ((cd20.update (20 * NANOS_PER_SEC)).1).print_text = "00:00" :=
  (c7_countdown cd20 rfl (20 * NANOS_PER_SEC)).1 (Nat.le_refl _)

/-! ## Controller phase lemmas -/

namespace Controller

variable {σ : Type}

/-- Unfolding: the tick phase on the empty collection. -/
theorem tickPhaseAux_nil (impl : EntityImpl σ) (i : Nat) :
    tickPhaseAux impl i [] = ⟨[], [], false, []⟩ := rfl

/-- Unfolding: one step of the tick phase. -/
theorem tickPhaseAux_cons (impl : EntityImpl σ) (i : Nat) (e : σ)
    (rest : List σ) :
    tickPhaseAux impl i (e :: rest) =
      if tickKills impl e then
        ⟨updState impl e :: rest, [], true,
          [Act.upd i, Act.drw i (wrapDraw impl e)]⟩
      else
        ⟨updState impl e :: (tickPhaseAux impl (i + 1) rest).entities,
          (updRes impl e).events ++ (tickPhaseAux impl (i + 1) rest).events,
          (tickPhaseAux impl (i + 1) rest).killed,
          Act.upd i :: Act.drw i (wrapDraw impl e) ::
            (tickPhaseAux impl (i + 1) rest).trace⟩ := by
  cases h : (impl.update e).2.kill <;>
    simp [tickPhaseAux, update_and_draw_entity, tickKills, updRes, updState,
      wrapDraw, h]

/-- The expected tick-phase trace over a list of entities, starting at
index `i`: an update and a draw for each entity in order. -/
def tickActs (impl : EntityImpl σ) : Nat → List σ → List Act
  | _, [] => []
  | i, e :: rest =>
      Act.upd i :: Act.drw i (wrapDraw impl e) :: tickActs impl (i + 1) rest

/-- When no entity's update kills, the tick phase updates and draws every
entity in order, accumulates all outgoing events in order, and reports no
kill. -/
theorem tickPhaseAux_no_kill (impl : EntityImpl σ) (es : List σ) (i : Nat)
    (h : ∀ e ∈ es, tickKills impl e = false) :
    tickPhaseAux impl i es =
      ⟨es.map (updState impl),
        (es.map (fun e => (updRes impl e).events)).flatten,
        false, tickActs impl i es⟩ := by
  induction es generalizing i with
  | nil => rfl
  | cons e rest ih =>
      rw [tickPhaseAux_cons]
      have he : tickKills impl e = false := h e (List.mem_cons_self e rest)
      rw [he]
      simp [ih (i + 1) (fun x hx => h x (List.mem_cons_of_mem e hx)), tickActs]

/-- When the first kill in the tick phase happens at index `i`, the phase
stops there: entities up to and including `i` are updated (and drawn),
entities after `i` are untouched, the collected events are exactly those
from the entities before `i`, and the trace covers only indices up to `i`. -/
theorem tickPhaseAux_kill (impl : EntityImpl σ) (es : List σ) (i0 i : Nat)
    (h : i < es.length)
    (hkill : tickKills impl (es.get ⟨i, h⟩) = true)
    (hfirst : ∀ j (hj : j < es.length), j < i →
      tickKills impl (es.get ⟨j, hj⟩) = false) :
    tickPhaseAux impl i0 es =
      ⟨(es.take (i + 1)).map (updState impl) ++ es.drop (i + 1),
        ((es.take i).map (fun e => (updRes impl e).events)).flatten,
        true, tickActs impl i0 (es.take (i + 1))⟩ := by
  induction es generalizing i0 i with
  | nil => exact absurd h (Nat.not_lt_zero i)
  | cons e rest ih =>
      cases i with
      | zero =>
          rw [tickPhaseAux_cons]
          have he : tickKills impl e = true := hkill
          rw [he]
          simp [tickActs]
      | succ i' =>
          have he : tickKills impl e = false :=
            hfirst 0 (Nat.succ_pos _) (Nat.succ_pos _)
          rw [tickPhaseAux_cons, he]
          have h' : i' < rest.length := Nat.lt_of_succ_lt_succ h
          have hkill' : tickKills impl (rest.get ⟨i', h'⟩) = true := hkill
          have hfirst' : ∀ j (hj : j < rest.length), j < i' →
              tickKills impl (rest.get ⟨j, hj⟩) = false := by
            intro j hj hlt
            exact hfirst (j + 1) (Nat.succ_lt_succ hj) (Nat.succ_lt_succ hlt)
          simp [ih (i0 + 1) i' h' hkill' hfirst', tickActs]

end Controller

namespace Controller

variable {σ : Type}

/-- Unfolding: the input phase on the empty collection. -/
theorem inputPhaseAux_nil (impl : EntityImpl σ) (ev : InputEvent) (i : Nat) :
    inputPhaseAux impl ev i [] = ⟨[], [], false, []⟩ := rfl

/-- Unfolding: one step of the input phase. -/
theorem inputPhaseAux_cons (impl : EntityImpl σ) (ev : InputEvent) (i : Nat)
    (e : σ) (rest : List σ) :
    inputPhaseAux impl ev i (e :: rest) =
      if acted impl ev e then
        (if (updRes impl (handled impl ev e)).kill then
          ⟨updState impl (handled impl ev e) :: rest, [], true,
            [Act.hev i, Act.upd i,
              Act.drw i (wrapDraw impl (handled impl ev e))]⟩
        else
          ⟨updState impl (handled impl ev e) ::
              (inputPhaseAux impl ev (i + 1) rest).entities,
            (updRes impl (handled impl ev e)).events ++
              (inputPhaseAux impl ev (i + 1) rest).events,
            (inputPhaseAux impl ev (i + 1) rest).killed,
            Act.hev i :: Act.upd i ::
              Act.drw i (wrapDraw impl (handled impl ev e)) ::
              (inputPhaseAux impl ev (i + 1) rest).trace⟩)
      else
        ⟨handled impl ev e :: (inputPhaseAux impl ev (i + 1) rest).entities,
          (inputPhaseAux impl ev (i + 1) rest).events,
          (inputPhaseAux impl ev (i + 1) rest).killed,
          Act.hev i :: (inputPhaseAux impl ev (i + 1) rest).trace⟩ := by
  cases ha : (impl.handle_event e ev).2 with
  | false =>
      simp [inputPhaseAux, acted, handled, ha]
  | true =>
      cases hk : (impl.update (impl.handle_event e ev).1).2.kill <;>
        simp [inputPhaseAux, update_and_draw_entity, acted, handled, updRes,
          updState, wrapDraw, ha, hk]

/-- The state an entity is left in by the input phase when no kill stops
the pass before it: the consumer's post-re-update state, or just the
post-offer state for a non-consumer. -/
def inputStep (impl : EntityImpl σ) (ev : InputEvent) (e : σ) : σ :=
  if acted impl ev e then updState impl (handled impl ev e)
  else handled impl ev e

/-- The events an entity contributes to the input phase: its re-update's
outgoing events if it consumed the input, nothing otherwise. -/
def inputEvts (impl : EntityImpl σ) (ev : InputEvent) (e : σ) :
    List ControlEvent :=
  if acted impl ev e then (updRes impl (handled impl ev e)).events else []

/-- The expected input-phase trace over a list of entities, starting at
index `i`: an offer for everyone, plus an update and a draw for each
consumer. -/
def inputActs (impl : EntityImpl σ) (ev : InputEvent) :
    Nat → List σ → List Act
  | _, [] => []
  | i, e :: rest =>
      if acted impl ev e then
        Act.hev i :: Act.upd i ::
          Act.drw i (wrapDraw impl (handled impl ev e)) ::
          inputActs impl ev (i + 1) rest
      else
        Act.hev i :: inputActs impl ev (i + 1) rest

/-- When no consumer's re-update kills, the input phase offers the event
to every entity in order, re-updates and re-draws exactly the consumers,
accumulates their events in order, and reports no kill. -/
theorem inputPhaseAux_no_kill (impl : EntityImpl σ) (ev : InputEvent)
    (es : List σ) (i : Nat)
    (h : ∀ e ∈ es, inputKills impl ev e = false) :
    inputPhaseAux impl ev i es =
      ⟨es.map (inputStep impl ev),
        (es.map (inputEvts impl ev)).flatten,
        false, inputActs impl ev i es⟩ := by
  induction es generalizing i with
  | nil => rfl
  | cons e rest ih =>
      rw [inputPhaseAux_cons]
      have he : inputKills impl ev e = false := h e (List.mem_cons_self e rest)
      have ihr := ih (i + 1) (fun x hx => h x (List.mem_cons_of_mem e hx))
      cases ha : acted impl ev e with
      | false =>
          simp [ha, ihr, inputStep, inputEvts, inputActs]
      | true =>
          have hk : (updRes impl (handled impl ev e)).kill = false := by
            have := he
            simp [inputKills, ha] at this
            exact this
          simp [ha, hk, ihr, inputStep, inputEvts, inputActs]

/-- When the first consumer whose re-update kills sits at index `i`, the
input phase stops there: entities up to and including `i` are processed,
entities after `i` are untouched, the collected events are exactly those
contributed before `i`, and the trace covers only indices up to `i`. -/
theorem inputPhaseAux_kill (impl : EntityImpl σ) (ev : InputEvent)
    (es : List σ) (i0 i : Nat) (h : i < es.length)
    (hkill : inputKills impl ev (es.get ⟨i, h⟩) = true)
    (hfirst : ∀ j (hj : j < es.length), j < i →
      inputKills impl ev (es.get ⟨j, hj⟩) = false) :
    inputPhaseAux impl ev i0 es =
      ⟨(es.take (i + 1)).map (inputStep impl ev) ++ es.drop (i + 1),
        ((es.take i).map (inputEvts impl ev)).flatten,
        true, inputActs impl ev i0 (es.take (i + 1))⟩ := by
  induction es generalizing i0 i with
  | nil => exact absurd h (Nat.not_lt_zero i)
  | cons e rest ih =>
      cases i with
      | zero =>
          rw [inputPhaseAux_cons]
          have he : inputKills impl ev e = true := hkill
          have ha : acted impl ev e = true := by
            have := he
            simp [inputKills] at this
            exact this.1
          have hk : (updRes impl (handled impl ev e)).kill = true := by
            have := he
            simp [inputKills] at this
            exact this.2
          simp [ha, hk, inputStep, inputActs]
      | succ i' =>
          have he : inputKills impl ev e = false :=
            hfirst 0 (Nat.succ_pos _) (Nat.succ_pos _)
          have h' : i' < rest.length := Nat.lt_of_succ_lt_succ h
          have hkill' : inputKills impl ev (rest.get ⟨i', h'⟩) = true := hkill
          have hfirst' : ∀ j (hj : j < rest.length), j < i' →
              inputKills impl ev (rest.get ⟨j, hj⟩) = false := by
            intro j hj hlt
            exact hfirst (j + 1) (Nat.succ_lt_succ hj) (Nat.succ_lt_succ hlt)
          have ihr := ih (i0 + 1) i' h' hkill' hfirst'
          rw [inputPhaseAux_cons]
          cases ha : acted impl ev e with
          | false =>
              simp [ha, ihr, inputStep, inputEvts, inputActs]
          | true =>
              have hk : (updRes impl (handled impl ev e)).kill = false := by
                have := he
                simp [inputKills, ha] at this
                exact this
              simp [ha, hk, ihr, inputStep, inputEvts, inputActs]

end Controller

namespace Controller

variable {σ : Type}

/-- Every index in a tick-phase trace starting at `i0` over `l` falls
short of `i0 + l.length`. -/
theorem tickActs_idx_lt (impl : EntityImpl σ) (l : List σ) (i0 : Nat) :
    ∀ a ∈ tickActs impl i0 l, a.idx < i0 + l.length := by
  induction l generalizing i0 with
  | nil => intro a ha; simp [tickActs] at ha
  | cons e rest ih =>
      intro a ha
      simp only [tickActs, List.mem_cons] at ha
      rcases ha with h | h | h
      · subst h
        simp only [Act.idx, List.length_cons]
        omega
      · subst h
        simp only [Act.idx, List.length_cons]
        omega
      · have := ih (i0 + 1) a h
        simp only [List.length_cons]
        omega

/-- Every index in an input-phase trace starting at `i0` over `l` falls
short of `i0 + l.length`. -/
theorem inputActs_idx_lt (impl : EntityImpl σ) (ev : InputEvent)
    (l : List σ) (i0 : Nat) :
    ∀ a ∈ inputActs impl ev i0 l, a.idx < i0 + l.length := by
  induction l generalizing i0 with
  | nil => intro a ha; simp [inputActs] at ha
  | cons e rest ih =>
      intro a ha
      by_cases hact : acted impl ev e
      · simp only [inputActs, hact, if_true, List.mem_cons] at ha
        rcases ha with h | h | h | h
        · subst h; simp only [Act.idx, List.length_cons]; omega
        · subst h; simp only [Act.idx, List.length_cons]; omega
        · subst h; simp only [Act.idx, List.length_cons]; omega
        · have := ih (i0 + 1) a h
          simp only [List.length_cons]
          omega
      · simp only [inputActs, hact, if_false, Bool.false_eq_true,
          List.mem_cons] at ha
        rcases ha with h | h
        · subst h; simp only [Act.idx, List.length_cons]; omega
        · have := ih (i0 + 1) a h
          simp only [List.length_cons]
          omega

/-- The tick phase's entity at position `j` is both updated and drawn: the
trace records its update and its wrapped draw output. -/
theorem tickActs_mem (impl : EntityImpl σ) (l : List σ) (i0 j : Nat)
    (hj : j < l.length) :
    Act.upd (i0 + j) ∈ tickActs impl i0 l
    ∧ Act.drw (i0 + j) (wrapDraw impl (l.get ⟨j, hj⟩)) ∈
        tickActs impl i0 l := by
  induction l generalizing i0 j with
  | nil => exact absurd hj (Nat.not_lt_zero j)
  | cons e rest ih =>
      cases j with
      | zero => simp [tickActs]
      | succ j' =>
          have hj' : j' < rest.length := Nat.lt_of_succ_lt_succ hj
          have h2 := ih (i0 + 1) j' hj'
          have harith : i0 + 1 + j' = i0 + (j' + 1) := by omega
          rw [harith] at h2
          constructor
          · simp only [tickActs]
            exact List.mem_cons_of_mem _ (List.mem_cons_of_mem _ h2.1)
          · simp only [tickActs]
            exact List.mem_cons_of_mem _ (List.mem_cons_of_mem _ h2.2)

/-- No phase action is a `set_property` call: event routing is the only
producer of `setProp` actions. (Tick phase.) -/
theorem tickPhaseAux_trace_no_setProp (impl : EntityImpl σ) (es : List σ)
    (i : Nat) :
    ∀ a ∈ (tickPhaseAux impl i es).trace, a.isSetProp = false := by
  induction es generalizing i with
  | nil => intro a ha; simp [tickPhaseAux_nil] at ha
  | cons e rest ih =>
      intro a ha
      rw [tickPhaseAux_cons] at ha
      by_cases hk : tickKills impl e
      · simp only [hk, if_true, List.mem_cons] at ha
        rcases ha with h | h
        · subst h; rfl
        · simp at h
          subst h; rfl
      · simp only [hk, if_false, Bool.false_eq_true, List.mem_cons] at ha
        rcases ha with h | h | h
        · subst h; rfl
        · subst h; rfl
        · exact ih (i + 1) a h

/-- No phase action is a `set_property` call. (Input phase.) -/
theorem inputPhaseAux_trace_no_setProp (impl : EntityImpl σ)
    (ev : InputEvent) (es : List σ) (i : Nat) :
    ∀ a ∈ (inputPhaseAux impl ev i es).trace, a.isSetProp = false := by
  induction es generalizing i with
  | nil => intro a ha; simp [inputPhaseAux_nil] at ha
  | cons e rest ih =>
      intro a ha
      rw [inputPhaseAux_cons] at ha
      by_cases hact : acted impl ev e
      · by_cases hk : (updRes impl (handled impl ev e)).kill
        · simp only [hact, hk, if_true, List.mem_cons] at ha
          rcases ha with h | h | h
          · subst h; rfl
          · subst h; rfl
          · simp at h
            subst h; rfl
        · simp only [hact, hk, if_true, if_false, Bool.false_eq_true,
            List.mem_cons] at ha
          rcases ha with h | h | h | h
          · subst h; rfl
          · subst h; rfl
          · subst h; rfl
          · exact ih (i + 1) a h
      · simp only [hact, if_false, Bool.false_eq_true, List.mem_cons] at ha
        rcases ha with h | h
        · subst h; rfl
        · exact ih (i + 1) a h

end Controller

namespace Controller

variable {σ : Type}

/-- Routing one event whose first matching name sits at position `i`: the
scan calls `set_property` on exactly that entity and stops. -/
theorem execute_entity_events_one_match (impl : EntityImpl σ) (es : List σ)
    (ev : ControlEvent) (i0 i : Nat) (h : i < es.length)
    (hm : impl.get_name (es.get ⟨i, h⟩) = ev.name)
    (hfirst : ∀ j (hj : j < es.length), j < i →
      impl.get_name (es.get ⟨j, hj⟩) ≠ ev.name) :
    execute_entity_events_one impl i0 ev es =
      (es.set i
        (impl.set_property (es.get ⟨i, h⟩) ev.property_key ev.property_value),
        [Act.setProp (i0 + i) ev.property_key ev.property_value]) := by
  induction es generalizing i0 i with
  | nil => exact absurd h (Nat.not_lt_zero i)
  | cons e rest ih =>
      cases i with
      | zero =>
          have hm0 : impl.get_name e = ev.name := hm
          simp [execute_entity_events_one, hm0]
      | succ i' =>
          have he : impl.get_name e ≠ ev.name :=
            hfirst 0 (Nat.succ_pos _) (Nat.succ_pos _)
          have h' : i' < rest.length := Nat.lt_of_succ_lt_succ h
          have hm' : impl.get_name (rest.get ⟨i', h'⟩) = ev.name := hm
          have hfirst' : ∀ j (hj : j < rest.length), j < i' →
              impl.get_name (rest.get ⟨j, hj⟩) ≠ ev.name := by
            intro j hj hlt
            exact hfirst (j + 1) (Nat.succ_lt_succ hj) (Nat.succ_lt_succ hlt)
          have harith : i0 + 1 + i' = i0 + (i' + 1) := by omega
          simp [execute_entity_events_one, he,
            ih (i0 + 1) i' h' hm' hfirst', harith]

/-- Routing one event that matches no entity's name: nothing changes and
no `set_property` call is made. -/
theorem execute_entity_events_one_nomatch (impl : EntityImpl σ)
    (es : List σ) (ev : ControlEvent) (i0 : Nat)
    (h : ∀ e ∈ es, impl.get_name e ≠ ev.name) :
    execute_entity_events_one impl i0 ev es = (es, []) := by
  induction es generalizing i0 with
  | nil => rfl
  | cons e rest ih =>
      have he : impl.get_name e ≠ ev.name := h e (List.mem_cons_self e rest)
      simp [execute_entity_events_one, he,
        ih (i0 + 1) (fun x hx => h x (List.mem_cons_of_mem e hx))]

end Controller

/-! ## C4 -/

/-- C4: routing one queued property-mutation event scans the entities in
registration order; at the first name match it calls `set_property` there
and stops, so that entity alone changes and every other index reads back
unchanged; with no matching name, the collection is untouched and no
`set_property` call happens (no error is possible — routing is total). -/
theorem c4_event_routing {σ : Type} (impl : EntityImpl σ) (es : List σ)
    (ev : ControlEvent) :
    (∀ i (h : i < es.length),
      impl.get_name (es.get ⟨i, h⟩) = ev.name →
      (∀ j (hj : j < es.length), j < i →
        impl.get_name (es.get ⟨j, hj⟩) ≠ ev.name) →
      Controller.execute_entity_events impl es [ev] =
        (es.set i (impl.set_property (es.get ⟨i, h⟩)
            ev.property_key ev.property_value),
          [Controller.Act.setProp i ev.property_key ev.property_value])
      ∧ ∀ j, j ≠ i →
          (Controller.execute_entity_events impl es [ev]).1[j]? = es[j]?)
    ∧ ((∀ j (hj : j < es.length),
        impl.get_name (es.get ⟨j, hj⟩) ≠ ev.name) →
      Controller.execute_entity_events impl es [ev] = (es, [])) := by
  constructor
  · intro i h hm hfirst
    have hone := Controller.execute_entity_events_one_match impl es ev 0 i h
      hm hfirst
    have hmain : Controller.execute_entity_events impl es [ev] =
        (es.set i (impl.set_property (es.get ⟨i, h⟩)
            ev.property_key ev.property_value),
          [Controller.Act.setProp i ev.property_key ev.property_value]) := by
      simp [Controller.execute_entity_events, hone]
    refine ⟨hmain, ?_⟩
    intro j hj
    rw [hmain]
    exact List.getElem?_set_ne (Ne.symm hj)
  · intro hno
    have hone := Controller.execute_entity_events_one_nomatch impl es ev 0
      (by
        intro e he
        obtain ⟨⟨j, hj⟩, rfl⟩ := List.mem_iff_get.mp he
        exact hno j hj)
    simp [Controller.execute_entity_events, hone]

/-- Concrete entities for exercising event routing. -/
def ceEntA : TestEntity := ⟨"a", [], false, false, [], [], false⟩

/-- Second concrete entity, target of the routed event. -/
def ceEntB : TestEntity := ⟨"b", [], false, false, [], [], false⟩

/-- Witness for C4: an event addressed to `"b"` updates exactly the second
entity and leaves index 0 unchanged. -/
theorem c4_event_routing_witness :
    Controller.execute_entity_events testImpl [ceEntA, ceEntB]
        [⟨"b", "k", "v"⟩] =
      ([ceEntA, ⟨"b", [("k", "v")], false, false, [], [], false⟩],
        [Controller.Act.setProp 1 "k" "v"])
    ∧ (Controller.execute_entity_events testImpl [ceEntA, ceEntB]
        [⟨"b", "k", "v"⟩]).1[0]? = [ceEntA, ceEntB][0]? := by
  have h := (c4_event_routing testImpl [ceEntA, ceEntB] ⟨"b", "k", "v"⟩).1 1
    (by decide) (by decide)
    (by
      intro j hj hlt
      have hj0 : j = 0 := by omega
      subst hj0
      show testImpl.get_name ceEntA ≠ "b"
      decide)
  exact ⟨h.1.trans (by decide), h.2 0 (by decide)⟩

/-! ## C2 -/

/-- C2: as long as no entity's update kills, a pass finishes with the loop
set to continue; and in the first pass — tick phase or input phase — where
some entity's update returns `kill`, the pass reports the kill, no action
in it touches an index past the killing entity, and every entity
registered after it is left in the state it started the pass with. -/
theorem c2_first_kill_ends_pass {σ : Type} (impl : EntityImpl σ)
    (es : List σ) (ev : InputEvent) :
    ((∀ e ∈ es, Controller.tickKills impl e = false) →
      (Controller.tickPhaseAux impl 0 es).killed = false)
    ∧ (∀ i (h : i < es.length),
        Controller.tickKills impl (es.get ⟨i, h⟩) = true →
        (∀ j (hj : j < es.length), j < i →
          Controller.tickKills impl (es.get ⟨j, hj⟩) = false) →
        (Controller.tickPhaseAux impl 0 es).killed = true
        ∧ (∀ a ∈ (Controller.tickPhaseAux impl 0 es).trace, a.idx ≤ i)
        ∧ (Controller.tickPhaseAux impl 0 es).entities.drop (i + 1) =
            es.drop (i + 1))
    ∧ ((∀ e ∈ es, Controller.inputKills impl ev e = false) →
      (Controller.inputPhaseAux impl ev 0 es).killed = false)
    ∧ (∀ i (h : i < es.length),
        Controller.inputKills impl ev (es.get ⟨i, h⟩) = true →
        (∀ j (hj : j < es.length), j < i →
          Controller.inputKills impl ev (es.get ⟨j, hj⟩) = false) →
        (Controller.inputPhaseAux impl ev 0 es).killed = true
        ∧ (∀ a ∈ (Controller.inputPhaseAux impl ev 0 es).trace, a.idx ≤ i)
        ∧ (Controller.inputPhaseAux impl ev 0 es).entities.drop (i + 1) =
            es.drop (i + 1)) := by
  refine ⟨?_, ?_, ?_, ?_⟩
  · intro hno
    rw [Controller.tickPhaseAux_no_kill impl es 0 hno]
  · intro i h hk hfirst
    rw [Controller.tickPhaseAux_kill impl es 0 i h hk hfirst]
    refine ⟨rfl, ?_, ?_⟩
    · intro a ha
      have := Controller.tickActs_idx_lt impl (es.take (i + 1)) 0 a ha
      have hlen : (es.take (i + 1)).length = i + 1 := by
        simp
        omega
      omega
    · have hlen : ((es.take (i + 1)).map (Controller.updState impl)).length
          = i + 1 := by
        simp
        omega
      show (((es.take (i + 1)).map (Controller.updState impl)) ++
          es.drop (i + 1)).drop (i + 1) = es.drop (i + 1)
      exact List.drop_left' hlen
  · intro hno
    rw [Controller.inputPhaseAux_no_kill impl ev es 0 hno]
  · intro i h hk hfirst
    rw [Controller.inputPhaseAux_kill impl ev es 0 i h hk hfirst]
    refine ⟨rfl, ?_, ?_⟩
    · intro a ha
      have := Controller.inputActs_idx_lt impl ev (es.take (i + 1)) 0 a ha
      have hlen : (es.take (i + 1)).length = i + 1 := by
        simp
        omega
      omega
    · have hlen : ((es.take (i + 1)).map (Controller.inputStep impl ev)).length
          = i + 1 := by
        simp
        omega
      show (((es.take (i + 1)).map (Controller.inputStep impl ev)) ++
          es.drop (i + 1)).drop (i + 1) = es.drop (i + 1)
      exact List.drop_left' hlen

/-- A quiet concrete entity (does not kill, consume, or emit). -/
def qEntA : TestEntity := ⟨"qa", [], false, false, [], [], false⟩

/-- A concrete entity whose update kills. -/
def qKill : TestEntity := ⟨"qk", [], true, false, [], [DrawCmd.printStr "K"], false⟩

/-- A quiet concrete entity registered after the killer. -/
def qEntB : TestEntity := ⟨"qb", [], false, false, [], [], false⟩

/-- Witness for C2: with the killer at index 1 of three entities, the tick
phase reports the kill, no recorded action goes past index 1, and the
entity at index 2 is untouched. -/
theorem c2_first_kill_ends_pass_witness :
    (Controller.tickPhaseAux testImpl 0 [qEntA, qKill, qEntB]).killed = true
    ∧ (∀ a ∈ (Controller.tickPhaseAux testImpl 0 [qEntA, qKill, qEntB]).trace,
        a.idx ≤ 1)
    ∧ (Controller.tickPhaseAux testImpl 0
        [qEntA, qKill, qEntB]).entities.drop 2 =
      [qEntA, qKill, qEntB].drop 2 :=
  (c2_first_kill_ends_pass testImpl [qEntA, qKill, qEntB]
      InputEvent.nonKey).2.1 1 (by decide) (by decide)
    (by
      intro j hj hlt
      have hj0 : j = 0 := by omega
      subst hj0
      show Controller.tickKills testImpl qEntA = false
      decide)

/-! ## C3 -/

/-- C3 counterexample: a single entity whose update kills is still drawn —
`update_and_draw_entity` draws before `work_loop` checks the kill flag, so
the trace of the pass records a draw (with the killer's wrapped output)
even though the pass halts on that entity's kill. -/
theorem c3_counterexample :
    (Controller.tickPhaseAux testImpl 0 [qKill]).killed = true
    ∧ Controller.Act.drw 0
        [DrawCmd.savePos, DrawCmd.printStr "K", DrawCmd.restorePos]
      ∈ (Controller.tickPhaseAux testImpl 0 [qKill]).trace := by
  constructor
  · decide
  · decide

/-- C3 amended: in the tick phase the controller calls `update` for each
entity in registration order, and when the first kill arrives at index `i`
the loop halts — but only after that entity's `render` has also run: both
its update and its draw (with wrapped output) are in the trace, and no
action goes past index `i`. -/
theorem c3_kill_after_render {σ : Type} (impl : EntityImpl σ) (es : List σ)
    (i : Nat) (h : i < es.length)
    (hk : Controller.tickKills impl (es.get ⟨i, h⟩) = true)
    (hfirst : ∀ j (hj : j < es.length), j < i →
      Controller.tickKills impl (es.get ⟨j, hj⟩) = false) :
    (Controller.tickPhaseAux impl 0 es).killed = true
    ∧ Controller.Act.upd i ∈ (Controller.tickPhaseAux impl 0 es).trace
    ∧ Controller.Act.drw i (Controller.wrapDraw impl (es.get ⟨i, h⟩))
        ∈ (Controller.tickPhaseAux impl 0 es).trace
    ∧ ∀ a ∈ (Controller.tickPhaseAux impl 0 es).trace, a.idx ≤ i := by
  rw [Controller.tickPhaseAux_kill impl es 0 i h hk hfirst]
  have hlen : (es.take (i + 1)).length = i + 1 := by
    simp
    omega
  have hi : i < (es.take (i + 1)).length := by omega
  have hmem := Controller.tickActs_mem impl (es.take (i + 1)) 0 i hi
  have hget : (es.take (i + 1)).get ⟨i, hi⟩ = es.get ⟨i, h⟩ := by
    simp [List.get_eq_getElem, List.getElem_take]
  rw [hget] at hmem
  refine ⟨rfl, ?_, ?_, ?_⟩
  · simpa using hmem.1
  · simpa using hmem.2
  · intro a ha
    have := Controller.tickActs_idx_lt impl (es.take (i + 1)) 0 a ha
    omega

/-- Witness for C3 (amended) at the three-entity collection: the killer at
index 1 is updated and drawn, and the pass stops at index 1. -/
theorem c3_kill_after_render_witness :
    (Controller.tickPhaseAux testImpl 0 [qEntA, qKill, qEntB]).killed = true
    ∧ Controller.Act.upd 1
        ∈ (Controller.tickPhaseAux testImpl 0 [qEntA, qKill, qEntB]).trace
    ∧ Controller.Act.drw 1
        (Controller.wrapDraw testImpl ([qEntA, qKill, qEntB].get
          ⟨1, by decide⟩))
        ∈ (Controller.tickPhaseAux testImpl 0 [qEntA, qKill, qEntB]).trace
    ∧ ∀ a ∈ (Controller.tickPhaseAux testImpl 0 [qEntA, qKill, qEntB]).trace,
        a.idx ≤ 1 :=
  c3_kill_after_render testImpl [qEntA, qKill, qEntB] 1 (by decide)
    (by decide)
    (by
      intro j hj hlt
      have hj0 : j = 0 := by omega
      subst hj0
      show Controller.tickKills testImpl qEntA = false
      decide)

/-! ## C9 -/

/-- C9: in any pass whose phase reports a kill, the event-application step
never runs: the full pass coincides with the bare phase (so the
accumulated property-mutation events are dropped), and its trace contains
no `set_property` call at all — no entity's property map is touched by
event routing in that pass. Both the tick pass and the input pass. -/
theorem c9_kill_discards_events {σ : Type} (impl : EntityImpl σ)
    (es : List σ) (ev : InputEvent) :
    ((Controller.tickPhaseAux impl 0 es).killed = true →
      Controller.tickPass impl es = Controller.tickPhaseAux impl 0 es
      ∧ ∀ a ∈ (Controller.tickPass impl es).trace, a.isSetProp = false)
    ∧ ((Controller.inputPhaseAux impl ev 0 es).killed = true →
      Controller.inputPass impl ev es = Controller.inputPhaseAux impl ev 0 es
      ∧ ∀ a ∈ (Controller.inputPass impl ev es).trace,
          a.isSetProp = false) := by
  constructor
  · intro hk
    have heq : Controller.tickPass impl es =
        Controller.tickPhaseAux impl 0 es := by
      simp [Controller.tickPass, hk]
    refine ⟨heq, ?_⟩
    rw [heq]
    exact Controller.tickPhaseAux_trace_no_setProp impl es 0
  · intro hk
    have heq : Controller.inputPass impl ev es =
        Controller.inputPhaseAux impl ev 0 es := by
      simp [Controller.inputPass, hk]
    refine ⟨heq, ?_⟩
    rw [heq]
    exact Controller.inputPhaseAux_trace_no_setProp impl ev es 0

/-- An entity that emits a property-mutation event on every update. -/
def qEmit : TestEntity :=
  ⟨"qe", [], false, false, [⟨"qb", "visible", "false"⟩], [], false⟩

/-- Witness for C9: with an emitter before the killer, the tick pass
reports the kill, equals the bare tick phase (the emitter's queued event is
discarded), and its trace applies no `set_property`. -/
theorem c9_kill_discards_events_witness :
    Controller.tickPass testImpl [qEmit, qKill, qEntB] =
      Controller.tickPhaseAux testImpl 0 [qEmit, qKill, qEntB]
    ∧ ∀ a ∈ (Controller.tickPass testImpl [qEmit, qKill, qEntB]).trace,
        a.isSetProp = false :=
  (c9_kill_discards_events testImpl [qEmit, qKill, qEntB]
      InputEvent.nonKey).1 (by decide)

/-! ## C8 -/

/-- The prompt configured with correct password `"hunter2"`, linked to a
feedback entity. -/
def hunterPrompt : PasswordPromptEntity :=
  PasswordPromptEntity.new "pw" "Enter password: " "hunter2"
    "FeedbackEntity-fb"

/-- C8: with correct password `"hunter2"`, typing `h,u,n,t,e,r,2` then
Enter is consumed and the prompt's update on that same cycle kills; typing
`h,u,n,t` then Enter clears the entered text, does not kill (the loop keeps
running), and that next update emits exactly the property-mutation event
setting the linked feedback entity's `"visible"` to `"true"`; and any
feedback entity that is visible with a show-stamp at least
`max_show_duration` old hides itself on its next update. -/
theorem c8_password_flow (f : FeedbackEntity) (t now : Nat)
    (hvis : f.is_visible = true) (hshown : f.last_shown = some t)
    (helapsed : now - t ≥ f.max_show_duration) :
    ((feedChars hunterPrompt
        ['h', 'u', 'n', 't', 'e', 'r', '2']).handle_event
        (InputEvent.key KeyCode.enter)).2 = true
    ∧ ((((feedChars hunterPrompt
          ['h', 'u', 'n', 't', 'e', 'r', '2']).handle_event
        (InputEvent.key KeyCode.enter)).1).update).2.kill = true
    ∧ (((feedChars hunterPrompt ['h', 'u', 'n', 't']).handle_event
        (InputEvent.key KeyCode.enter)).1).password = ""
    ∧ ((((feedChars hunterPrompt ['h', 'u', 'n', 't']).handle_event
        (InputEvent.key KeyCode.enter)).1).update).2.kill = false
    ∧ ((((feedChars hunterPrompt ['h', 'u', 'n', 't']).handle_event
        (InputEvent.key KeyCode.enter)).1).update).2.events =
      [⟨"FeedbackEntity-fb", "visible", "true"⟩]
    ∧ ((f.update now).1).is_visible = false := by
  refine ⟨by decide, by decide, by decide, by decide, by decide, ?_⟩
  have hnotNone : f.last_shown.isNone = false := by
    rw [hshown]
    rfl
  have hcond : (f.last_shown.map
      (fun t' => decide (now - t' ≥ f.max_show_duration))).getD false
      = true := by
    rw [hshown]
    simpa using helapsed
  have hv' : Visible.is_visible f.properties = true := hvis
  simp only [FeedbackEntity.update, hvis, hnotNone, Bool.true_and,
    Bool.and_false, if_false]
  simp [hcond, FeedbackEntity.is_visible, hv', is_visible_set_visible_false]

/-- A concrete feedback entity mid-display: visible, stamped at instant 0,
with a 5-unit show duration. -/
def fbShown : FeedbackEntity :=
  { FeedbackEntity.new "fb" "Wrong password, try again." 5 with
      last_shown := some 0 }

/-- Witness for C8 at the concrete feedback entity, updated at instant 5
(its show duration fully elapsed). -/
theorem c8_password_flow_witness :
    ((feedChars hunterPrompt
        ['h', 'u', 'n', 't', 'e', 'r', '2']).handle_event
        (InputEvent.key KeyCode.enter)).2 = true
    ∧ ((((feedChars hunterPrompt
          ['h', 'u', 'n', 't', 'e', 'r', '2']).handle_event
        (InputEvent.key KeyCode.enter)).1).update).2.kill = true
    ∧ (((feedChars hunterPrompt ['h', 'u', 'n', 't']).handle_event
        (InputEvent.key KeyCode.enter)).1).password = ""
    ∧ ((((feedChars hunterPrompt ['h', 'u', 'n', 't']).handle_event
        (InputEvent.key KeyCode.enter)).1).update).2.kill = false
    ∧ ((((feedChars hunterPrompt ['h', 'u', 'n', 't']).handle_event
        (InputEvent.key KeyCode.enter)).1).update).2.events =
      [⟨"FeedbackEntity-fb", "visible", "true"⟩]
    ∧ ((fbShown.update 5).1).is_visible = false :=
  c8_password_flow fbShown 0 5 (by decide) rfl (by decide)
